import Mathlib

/-!
# go-ecdh: the elliptic-curve ECDH adapter

A shallow embedding of `src/ecdh.go` (the `ECDH` interface) and `src/elliptic.go`
(the curve-backed implementation `ellipticECDH`), followed by theorems about
key generation, key (un)marshalling and the two shared-secret operations.

Modelling conventions

* `[]byte` is a list of bytes, `*big.Int` values handed around by the curve
  library are integers, `(*big.Int).Bytes` is the big-endian encoding of the
  absolute value without leading zero bytes.
* `crypto.PrivateKey` and `crypto.PublicKey` are both Go's empty interface; a
  value of that type is a `GoAny`: the nil interface, a (possibly nil) pointer to
  one of the two key structs of this package, or a value of some other type.
* A Go call either returns or panics: `Outcome α` is `Except Panic α`.
* The package `crypto/elliptic` and the interface `elliptic.Curve` are not part
  of the repository; the interface is a record of its methods and the three
  package functions the adapter calls are a record `EllipticPkg`, both taken as
  parameters.
  The library functions are total: they return, and the `*big.Int` values they
  return are not nil, with the one exception of `elliptic.Unmarshal`, whose
  two results are nil on failure. The only panics are those of the adapter
  itself: a failed type assertion, a nil pointer, a nil interface.
* An interface value is the record of its methods; converting `*ellipticECDH`
  to `ECDH` selects, for each interface method, the method declared on the
  type, or, when the type declares none of that name, the method promoted from
  the embedded field.
* Slices and pointers are compared by content; aliasing is not modelled.
-/

set_option maxRecDepth 100000

namespace GoEcdh

/-! ## Go values -/

/-- One byte. -/
abbrev Byte := Fin 256

/-- A Go byte slice, by value. -/
abbrev ByteSlice := List Byte

/-- A `math/big` integer. -/
abbrev BigInt := Int

/-- A Go `error` value (non-nil), carrying its message. -/
structure GoError where
  msg : String
deriving DecidableEq

/-- The run-time panics the adapter can raise. -/
inductive Panic where
  /-- A failed type assertion `v.(T)`. -/
  | typeAssertion
  /-- A nil pointer or nil interface was dereferenced. -/
  | nilDereference
deriving DecidableEq

/-- The result of a Go call: a returned value or a panic. -/
abbrev Outcome (α : Type) := Except Panic α

/-- Digits of `n` in base 256, most significant first, pushed in front of `acc`;
`fuel` bounds the number of digits produced. -/
def natBytesAux : Nat → Nat → ByteSlice → ByteSlice
  | 0, _, acc => acc
  | fuel + 1, n, acc =>
    if n = 0 then acc
    else natBytesAux fuel (n / 256) (⟨n % 256, Nat.mod_lt n (by decide)⟩ :: acc)

/-- Big-endian bytes of a natural number, no leading zero byte; `0` is empty. -/
def natBytes (n : Nat) : ByteSlice := natBytesAux n n []

/-- The method `(*big.Int).Bytes`: the big-endian encoding of the absolute value. -/
def BigInt.Bytes (x : BigInt) : ByteSlice := natBytes x.natAbs

/-- The method `(*big.Int).SetBytes`: the unsigned big-endian value of a slice. -/
def BigInt.SetBytes (b : ByteSlice) : BigInt :=
  ((b.foldl (fun acc d => acc * 256 + d.val) 0 : Nat) : Int)

/-! ## The curve library (`crypto/elliptic`), taken as a parameter -/

/-- The struct `elliptic.CurveParams`. -/
structure CurveParams where
  P : BigInt
  N : BigInt
  B : BigInt
  Gx : BigInt
  Gy : BigInt
  BitSize : Nat
  Name : String

/-- The interface `elliptic.Curve`, as the record of its methods. -/
structure Curve where
  Params : CurveParams
  IsOnCurve : BigInt → BigInt → Bool
  Add : BigInt → BigInt → BigInt → BigInt → BigInt × BigInt
  Double : BigInt → BigInt → BigInt × BigInt
  ScalarMult : BigInt → BigInt → ByteSlice → BigInt × BigInt
  ScalarBaseMult : ByteSlice → BigInt × BigInt

/-- The functions of package `crypto/elliptic` that the adapter calls. `Reader`
is the type of `io.Reader` values. `GenerateKey` returns either a non-nil error
or the scalar with the two coordinates; `Unmarshal` returns two nullable
`*big.Int`. -/
structure EllipticPkg (Reader : Type) where
  GenerateKey : Curve → Reader → Except GoError (ByteSlice × BigInt × BigInt)
  Marshal : Curve → BigInt → BigInt → ByteSlice
  Unmarshal : Curve → ByteSlice → Option BigInt × Option BigInt

/-! ## `src/elliptic.go`: the key types -/

/-- The struct `ellipticPublicKey`: the embedded curve and the two coordinates. -/
structure ellipticPublicKey where
  Curve : Curve
  X : BigInt
  Y : BigInt

/-- The struct `ellipticPrivateKey`. -/
structure ellipticPrivateKey where
  D : ByteSlice

/-- A value of Go's empty interface (`crypto.PrivateKey`, `crypto.PublicKey`):
the nil interface, a pointer (`none` is the nil pointer) to one of the two key
structs, or a value of any other dynamic type. -/
inductive GoAny where
  | nil
  | privateKeyPtr (p : Option ellipticPrivateKey)
  | publicKeyPtr (p : Option ellipticPublicKey)
  | other

/-- The type assertion `v.(*ellipticPrivateKey)`. -/
def GoAny.assertPrivateKeyPtr : GoAny → Outcome (Option ellipticPrivateKey)
  | .privateKeyPtr p => .ok p
  | _ => .error Panic.typeAssertion

/-- The type assertion `v.(*ellipticPublicKey)`. -/
def GoAny.assertPublicKeyPtr : GoAny → Outcome (Option ellipticPublicKey)
  | .publicKeyPtr p => .ok p
  | _ => .error Panic.typeAssertion

/-- Dereferencing a pointer to read a field: a nil pointer panics. -/
def deref {α : Type} : Option α → Outcome α
  | some a => .ok a
  | none => .error Panic.nilDereference

/-! ## `src/ecdh.go`: the interface -/

/-- The interface `ECDH`, as the record of its seven methods. -/
structure ECDH (Reader : Type) where
  GenerateKey : Reader → Outcome (GoAny × GoAny × Option GoError)
  Marshal : GoAny → Outcome ByteSlice
  MarshalPrivateKey : GoAny → Outcome ByteSlice
  Unmarshal : ByteSlice → Outcome (GoAny × Bool)
  UnmarshalPrivateKey : ByteSlice → Outcome GoAny
  GenerateSharedSecret : GoAny → GoAny → Outcome (ByteSlice × Option GoError)
  GenSharedSecret32 : GoAny → GoAny → Outcome (ByteSlice × Option GoError)

/-! ## `src/elliptic.go`: the implementation -/

/-- The struct `ellipticECDH`: the embedded interface field `ECDH` (`none` is the
nil interface) and the curve. -/
structure ellipticECDH (Reader : Type) where
  ECDH : Option (ECDH Reader)
  curve : Curve

/-- The padding loop of `GenSharedSecret32`, `for i := 0; i < 32-len(ret); i++`
with body `ret = append(ret, 0x00)`, entered with counter `i` and slice `ret`;
the bound is evaluated again before every iteration. -/
def padLoop (i : Nat) (ret : ByteSlice) : ByteSlice :=
  if (i : Int) < 32 - (ret.length : Int) then padLoop (i + 1) (ret ++ [0]) else ret
termination_by 32 - ret.length
decreasing_by
  simp only [List.length_append, List.length_singleton]
  omega

section Methods

variable {Reader : Type}

/-- The method `(*ellipticECDH).GenerateKey`. -/
def ellipticECDH.GenerateKey (elliptic : EllipticPkg Reader) (e : ellipticECDH Reader)
    (rand : Reader) : Outcome (GoAny × GoAny × Option GoError) :=
  match elliptic.GenerateKey e.curve rand with
  | .error err => .ok (GoAny.nil, GoAny.nil, some err)
  | .ok (d, x, y) =>
    let priv : ellipticPrivateKey := ⟨d⟩
    let pub : ellipticPublicKey := ⟨e.curve, x, y⟩
    .ok (GoAny.privateKeyPtr (some priv), GoAny.publicKeyPtr (some pub), none)

/-- The method `(*ellipticECDH).Marshal`. -/
def ellipticECDH.Marshal (elliptic : EllipticPkg Reader) (e : ellipticECDH Reader)
    (p : GoAny) : Outcome ByteSlice := do
  let pub ← deref (← p.assertPublicKeyPtr)
  return elliptic.Marshal e.curve pub.X pub.Y

/-- The method `(*ellipticECDH).UnmarshalPrivateKey`. -/
def ellipticECDH.UnmarshalPrivateKey (_e : ellipticECDH Reader) (data : ByteSlice) :
    Outcome GoAny :=
  let priv : ellipticPrivateKey := ⟨data⟩
  .ok (GoAny.privateKeyPtr (some priv))

/-- The method `(*ellipticECDH).MarshalPrivateKey`. -/
def ellipticECDH.MarshalPrivateKey (_e : ellipticECDH Reader) (p : GoAny) :
    Outcome ByteSlice := do
  let priv ← deref (← p.assertPrivateKeyPtr)
  return priv.D

/-- The method `(*ellipticECDH).Unmarshal`: the key stays the nil pointer when the
library returns a nil coordinate. -/
def ellipticECDH.Unmarshal (elliptic : EllipticPkg Reader) (e : ellipticECDH Reader)
    (data : ByteSlice) : Outcome (GoAny × Bool) :=
  match elliptic.Unmarshal e.curve data with
  | (some x, some y) =>
    let key : ellipticPublicKey := ⟨e.curve, x, y⟩
    .ok (GoAny.publicKeyPtr (some key), true)
  | _ => .ok (GoAny.publicKeyPtr none, false)

/-- The method `(*ellipticECDH).GenSharedSecret`. -/
def ellipticECDH.GenSharedSecret (e : ellipticECDH Reader) (privKey pubKey : GoAny) :
    Outcome (ByteSlice × Option GoError) := do
  let priv ← privKey.assertPrivateKeyPtr
  let pub ← pubKey.assertPublicKeyPtr
  let pubv ← deref pub
  let privv ← deref priv
  let (x, _) := e.curve.ScalarMult pubv.X pubv.Y privv.D
  return (x.Bytes, none)

/-- The method `(*ellipticECDH).GenSharedSecret32`. -/
def ellipticECDH.GenSharedSecret32 (e : ellipticECDH Reader) (privKey pubKey : GoAny) :
    Outcome (ByteSlice × Option GoError) := do
  let priv ← privKey.assertPrivateKeyPtr
  let pub ← pubKey.assertPublicKeyPtr
  let pubv ← deref pub
  let privv ← deref priv
  let (x, _) := e.curve.ScalarMult pubv.X pubv.Y privv.D
  let ret := x.Bytes
  let ret := if ret.length > 32 then ret.take 32 else ret
  let ret := if ret.length < 32 then padLoop 0 ret else ret
  return (ret, none)

/-- The conversion of a `*ellipticECDH` to the interface `ECDH`. Six interface
methods are declared on the type. `GenerateSharedSecret` is not (the type
declares `GenSharedSecret`), so the method set takes it from the embedded field
`ECDH`; calling it on a nil embedded interface is a nil dereference. -/
def ellipticECDH.asECDH (elliptic : EllipticPkg Reader) (e : ellipticECDH Reader) :
    GoEcdh.ECDH Reader where
  GenerateKey := e.GenerateKey elliptic
  Marshal := e.Marshal elliptic
  MarshalPrivateKey := e.MarshalPrivateKey
  Unmarshal := e.Unmarshal elliptic
  UnmarshalPrivateKey := e.UnmarshalPrivateKey
  GenerateSharedSecret := fun privKey pubKey => do
    let embedded ← deref e.ECDH
    embedded.GenerateSharedSecret privKey pubKey
  GenSharedSecret32 := e.GenSharedSecret32

/-- The function `NewEllipticECDH`: only the field `curve` is set, the embedded
interface is left at its zero value. -/
def NewEllipticECDH (elliptic : EllipticPkg Reader) (curve : Curve) : ECDH Reader :=
  ellipticECDH.asECDH elliptic ⟨none, curve⟩

end Methods

/-! ## Uncompressed point encodings

The words used for the inputs that `elliptic.Unmarshal` is documented to
reject: a slice of the wrong length, a slice describing a point off the curve. -/

/-- Byte length of a coordinate of `curve`: `(BitSize + 7) / 8`. -/
def Curve.byteLen (curve : Curve) : Nat := (curve.Params.BitSize + 7) / 8

/-- The point an uncompressed encoding for `curve` describes: after the marker
byte, two big-endian coordinates of `byteLen` bytes each. -/
def Curve.describedPoint (curve : Curve) (data : ByteSlice) : BigInt × BigInt :=
  (BigInt.SetBytes ((data.drop 1).take curve.byteLen),
    BigInt.SetBytes (data.drop (1 + curve.byteLen)))

/-- The slice has the wrong length for an uncompressed point of `curve`. -/
def Curve.wrongLength (curve : Curve) (data : ByteSlice) : Prop :=
  data.length ≠ 1 + 2 * curve.byteLen

/-- The slice describes a point that is not on `curve`. -/
def Curve.offCurve (curve : Curve) (data : ByteSlice) : Prop :=
  curve.IsOnCurve (curve.describedPoint data).1 (curve.describedPoint data).2 = false

/-! ## A small instance of the curve library

The interface `elliptic.Curve` can be implemented by any type. The curve below
is the additive group of the integers modulo the Mersenne prime `2 ^ 521 - 1`,
drawn as the points `(x, 2 x)` of a line: scalar multiplication multiplies both
coordinates. As on the curves of the library, the neutral element is
returned as `(0, 0)` and `IsOnCurve` does not count it as a point of the curve.

The package functions are written after the generic code of `crypto/elliptic`
(the code over `CurveParams`, before point validation was added to `Marshal`):

* `GenerateKey` reads as many bytes as the order `N` has, clears the excess
  bits of the first byte, xors the second byte with `0x42`, draws again when
  the scalar is not below `N`, and returns the scalar with its multiple of the
  base point; a reader is the list of the bytes it will deliver, and running
  dry is `io.EOF` before the first byte and `io.ErrUnexpectedEOF` after it;
* `Marshal` is the marker byte 4 and the two coordinates in `(BitSize + 7) / 8`
  bytes each;
* `Unmarshal` checks the length, the marker byte, the range of the coordinates
  and `IsOnCurve`, and returns two nil coordinates when a check fails.

They stand in for the library on coordinates in range and an order of two bytes
or more; where the library would panic (a coordinate too wide for `Marshal`,
an order of less than two bytes) they return a value, since the functions of
`EllipticPkg` are total. They are used to evaluate the adapter on concrete
inputs only; every general theorem is about an arbitrary `EllipticPkg`. -/

/-- Fixed-width big-endian encoding of `n` in `w` bytes. -/
def fillBytes : Nat → Nat → ByteSlice
  | 0, _ => []
  | w + 1, n => ⟨n / 256 ^ w % 256, Nat.mod_lt _ (by decide)⟩ :: fillBytes w n

/-- Number of binary digits of `n`, at most `fuel` of them. -/
def bitLenAux : Nat → Nat → Nat
  | 0, _ => 0
  | fuel + 1, n => if n = 0 then 0 else bitLenAux fuel (n / 2) + 1

/-- The method `(*big.Int).BitLen`. -/
def BigInt.BitLen (x : BigInt) : Nat := bitLenAux x.natAbs x.natAbs

/-- The table `mask` of `crypto/elliptic`, indexed by `bitSize % 8`. -/
def mask (r : Nat) : Byte :=
  [0xff, 0x01, 0x03, 0x07, 0x0f, 0x1f, 0x3f, 0x7f].getD r 0xff

/-- The two statements `priv[0] &= mask[bitSize%8]` and `priv[1] ^= 0x42`. -/
def maskScalar (bitSize : Nat) : ByteSlice → ByteSlice
  | b0 :: b1 :: rest => (b0 &&& mask (bitSize % 8)) :: (b1 ^^^ 0x42) :: rest
  | short => short

/-- The loop of `elliptic.GenerateKey` over the bytes `rand` still to be
delivered; `fuel` bounds the number of draws. -/
def generateKeyLoop (curve : Curve) (bitSize : Nat) :
    Nat → ByteSlice → Except GoError (ByteSlice × BigInt × BigInt)
  | 0, _ => .error ⟨"EOF"⟩
  | fuel + 1, rand =>
    if rand.length < (bitSize + 7) / 8 then
      .error (if rand.length = 0 then ⟨"EOF"⟩ else ⟨"unexpected EOF"⟩)
    else
      let priv := maskScalar bitSize (rand.take ((bitSize + 7) / 8))
      if BigInt.SetBytes priv ≥ curve.Params.N then
        generateKeyLoop curve bitSize fuel (rand.drop ((bitSize + 7) / 8))
      else
        let q := curve.ScalarBaseMult priv
        .ok (priv, q.1, q.2)

/-- The modulus of the instance. -/
def lineP : BigInt := 2 ^ 521 - 1

/-- The curve of the instance. -/
def lineCurve : Curve where
  Params := ⟨lineP, lineP, 0, 1, 2, 521, "line-521"⟩
  IsOnCurve := fun x y => decide (0 < x ∧ x < lineP ∧ y = 2 * x % lineP)
  Add := fun x1 y1 x2 y2 => ((x1 + x2) % lineP, (y1 + y2) % lineP)
  Double := fun x y => (2 * x % lineP, 2 * y % lineP)
  ScalarMult := fun x y k =>
    (BigInt.SetBytes k * x % lineP, BigInt.SetBytes k * y % lineP)
  ScalarBaseMult := fun k => (BigInt.SetBytes k * 1 % lineP, BigInt.SetBytes k * 2 % lineP)

/-- The package functions of the instance. -/
def linePkg : EllipticPkg ByteSlice where
  GenerateKey := fun curve rand =>
    generateKeyLoop curve curve.Params.N.BitLen (rand.length + 1) rand
  Marshal := fun curve x y =>
    4 :: (fillBytes curve.byteLen x.natAbs ++ fillBytes curve.byteLen y.natAbs)
  Unmarshal := fun curve data =>
    if data.length ≠ 1 + 2 * curve.byteLen then (none, none)
    else if data.head? ≠ some 4 then (none, none)
    else
      let x := BigInt.SetBytes ((data.drop 1).take curve.byteLen)
      let y := BigInt.SetBytes (data.drop (1 + curve.byteLen))
      if x ≥ curve.Params.P ∨ y ≥ curve.Params.P then (none, none)
      else if curve.IsOnCurve x y = false then (none, none)
      else (some x, some y)

/-- The adapter bound to the instance. -/
def lineECDH : ECDH ByteSlice := NewEllipticECDH linePkg lineCurve

/-- The base point of the instance as a public key; it is the public key of the
scalar one. -/
def basePub : ellipticPublicKey := ⟨lineCurve, 1, 2⟩

/-- The scalar zero, one byte long. -/
def scalarZero : ByteSlice := [0]

/-- A scalar whose encoding has 30 bytes: `256 ^ 29`. -/
def scalar30 : ByteSlice := 1 :: List.replicate 29 0

/-- A scalar whose encoding has 31 bytes: `256 ^ 30 + 7`. -/
def scalar31 : ByteSlice := 1 :: (List.replicate 29 0 ++ [7])

/-- A scalar whose encoding has 33 bytes: `256 ^ 32 + 2`. -/
def scalar33 : ByteSlice := 1 :: (List.replicate 31 0 ++ [2])

/-- The scalar three in 66 bytes. -/
def scalarA : ByteSlice := List.replicate 65 0 ++ [3]

/-- The scalar five in 66 bytes. -/
def scalarB : ByteSlice := List.replicate 65 0 ++ [5]

/-- The scalar zero in 66 bytes. -/
def scalarO : ByteSlice := List.replicate 66 0

/-- The bytes delivered by the reader of party A, `00 42 00 ... 00 03`: key
generation turns them into the scalar three. -/
def randA : ByteSlice := 0 :: 0x42 :: (List.replicate 63 0 ++ [3])

/-- The bytes delivered by the reader of party B, `00 42 00 ... 00 05`: key
generation turns them into the scalar five. -/
def randB : ByteSlice := 0 :: 0x42 :: (List.replicate 63 0 ++ [5])

/-- The bytes delivered by a reader, `00 42 00 ... 00`, that key generation turns
into the scalar zero. -/
def randO : ByteSlice := 0 :: 0x42 :: List.replicate 64 0

/-! ## The encoding of big integers -/

/-- With enough fuel the digit loop puts in front of `acc` a slice that reads
back as `n` and does not start with a zero byte. -/
theorem natBytesAux_spec (fuel n : Nat) (acc : ByteSlice) (h : n ≤ fuel) :
    ∃ ds : ByteSlice, natBytesAux fuel n acc = ds ++ acc
      ∧ ds.foldl (fun a (d : Byte) => a * 256 + d.val) 0 = n
      ∧ ds.head? ≠ some 0 := by
  induction fuel generalizing n acc with
  | zero =>
    have hn : n = 0 := by omega
    subst hn
    exact ⟨[], rfl, rfl, by simp⟩
  | succ fuel ih =>
    unfold natBytesAux
    by_cases hn : n = 0
    · subst hn
      exact ⟨[], by simp, rfl, by simp⟩
    · rw [if_neg hn]
      obtain ⟨ds, heq, hval, hhead⟩ :=
        ih (n / 256) (⟨n % 256, Nat.mod_lt n (by decide)⟩ :: acc) (by omega)
      refine ⟨ds ++ [⟨n % 256, Nat.mod_lt n (by decide)⟩], ?_, ?_, ?_⟩
      · rw [heq, List.append_assoc, List.singleton_append]
      · rw [List.foldl_append, hval]
        simp only [List.foldl_cons, List.foldl_nil]
        omega
      · cases ds with
        | nil =>
          simp only [List.foldl_nil] at hval
          simp only [List.nil_append, List.head?_cons, ne_eq, Option.some.injEq]
          intro h0
          have := congrArg Fin.val h0
          simp only [Fin.val_zero] at this
          omega
        | cons d ds => simpa using hhead

/-- The model of `(*big.Int).Bytes` is the minimal big-endian encoding of the
absolute value: it reads back as the absolute value and has no leading zero
byte. -/
theorem Bytes_minimal (x : BigInt) :
    BigInt.SetBytes x.Bytes = |x| ∧ x.Bytes.head? ≠ some 0 := by
  obtain ⟨ds, heq, hval, hhead⟩ := natBytesAux_spec x.natAbs x.natAbs [] (le_refl _)
  rw [List.append_nil] at heq
  unfold BigInt.Bytes natBytes BigInt.SetBytes
  rw [heq, hval]
  exact ⟨Int.natCast_natAbs x, hhead⟩

/-! ## The padding loop in closed form -/

/-- The padding loop appends zero bytes only, and it appends half of the missing
length, rounded up: each iteration both lengthens the slice and advances the
counter, so the distance to the bound shrinks by two. -/
theorem padLoop_eq (i : Nat) (ret : ByteSlice) :
    padLoop i ret = ret ++ List.replicate ((32 - ret.length - i + 1) / 2) (0 : Byte) := by
  induction i, ret using padLoop.induct with
  | case1 i ret h ih =>
    rw [padLoop, if_pos h, ih]
    have hk : (32 - ret.length - i + 1) / 2
        = (32 - (ret ++ [(0 : Byte)]).length - (i + 1) + 1) / 2 + 1 := by
      simp only [List.length_append, List.length_singleton]
      omega
    rw [hk, List.replicate_succ, List.append_assoc]
    rfl
  | case2 i ret h =>
    rw [padLoop, if_neg h]
    have hk : (32 - ret.length - i + 1) / 2 = 0 := by omega
    rw [hk]
    simp

/-- The value `GenSharedSecret32` computes from the encoding `b` of the
x-coordinate: the two `if` statements applied in turn. -/
theorem normalize_eq (b : ByteSlice) :
    (if (if b.length > 32 then b.take 32 else b).length < 32
      then padLoop 0 (if b.length > 32 then b.take 32 else b)
      else (if b.length > 32 then b.take 32 else b))
    = b.take 32 ++ List.replicate ((32 - b.length + 1) / 2) (0 : Byte) := by
  by_cases h : b.length > 32
  · have hlen : (b.take 32).length = 32 := by
      rw [List.length_take]; omega
    have hk : (32 - b.length + 1) / 2 = 0 := by omega
    simp only [if_pos h, hlen, hk]
    simp
  · have ht : b.take 32 = b := List.take_of_length_le (by omega)
    simp only [if_neg h, ht]
    by_cases h2 : b.length < 32
    · rw [if_pos h2, padLoop_eq]
      simp
    · have hk : (32 - b.length + 1) / 2 = 0 := by omega
      rw [if_neg h2, hk]
      simp

section Semantics

variable {Reader : Type}

/-- On a private key holding `d` and a public key holding `(X, Y)`, the method
`GenSharedSecret32` returns, with a nil error, the first 32 bytes of the
encoding of the x-coordinate followed by half of the missing length, rounded
up, of zero bytes. -/
theorem GenSharedSecret32_eq (e : ellipticECDH Reader) (priv : ellipticPrivateKey)
    (pub : ellipticPublicKey) :
    e.GenSharedSecret32 (GoAny.privateKeyPtr (some priv)) (GoAny.publicKeyPtr (some pub))
      = .ok ((e.curve.ScalarMult pub.X pub.Y priv.D).1.Bytes.take 32
          ++ List.replicate
              ((32 - (e.curve.ScalarMult pub.X pub.Y priv.D).1.Bytes.length + 1) / 2) (0 : Byte),
          none) := by
  rw [← normalize_eq]
  rfl

/-- When the encoding of the x-coordinate has exactly 31 bytes, `GenSharedSecret32`
returns it followed by one zero byte. -/
theorem GenSharedSecret32_31_bytes (e : ellipticECDH Reader) (priv : ellipticPrivateKey)
    (pub : ellipticPublicKey)
    (hL : (e.curve.ScalarMult pub.X pub.Y priv.D).1.Bytes.length = 31) :
    e.GenSharedSecret32 (GoAny.privateKeyPtr (some priv)) (GoAny.publicKeyPtr (some pub))
      = .ok ((e.curve.ScalarMult pub.X pub.Y priv.D).1.Bytes ++ [0], none) := by
  rw [GenSharedSecret32_eq, hL, List.take_of_length_le (by omega)]
  rfl

/-- Calling `GenSharedSecret32` through the interface value is calling the
method of the concrete type. -/
theorem NewEllipticECDH_GenSharedSecret32 (elliptic : EllipticPkg Reader) (curve : Curve)
    (privKey pubKey : GoAny) :
    (NewEllipticECDH elliptic curve).GenSharedSecret32 privKey pubKey
      = ellipticECDH.GenSharedSecret32 (⟨none, curve⟩ : ellipticECDH Reader) privKey pubKey :=
  rfl

/-- Claim C10. With `b` the encoding of the x-coordinate of the scalar product and
`L` its length, `GenSharedSecret32` returns without error a slice `ret` such
that: `ret` has length 32 when `L ≥ 32`; it has length `L + ⌈(32 - L) / 2⌉` when
`L < 32`; it has length 32 exactly when `L ≥ 31`; its length lies between 16 and
32; its first `min L 32` bytes are those of `b`; every later byte is zero. -/
theorem GenSharedSecret32_exact_length (elliptic : EllipticPkg Reader) (curve : Curve)
    (priv : ellipticPrivateKey) (pub : ellipticPublicKey) :
    ∃ ret : ByteSlice,
      (NewEllipticECDH elliptic curve).GenSharedSecret32
          (GoAny.privateKeyPtr (some priv)) (GoAny.publicKeyPtr (some pub)) = .ok (ret, none)
      ∧ (32 ≤ (curve.ScalarMult pub.X pub.Y priv.D).1.Bytes.length → ret.length = 32)
      ∧ ((curve.ScalarMult pub.X pub.Y priv.D).1.Bytes.length < 32 →
          ret.length = (curve.ScalarMult pub.X pub.Y priv.D).1.Bytes.length
            + (32 - (curve.ScalarMult pub.X pub.Y priv.D).1.Bytes.length + 1) / 2)
      ∧ (ret.length = 32 ↔ 31 ≤ (curve.ScalarMult pub.X pub.Y priv.D).1.Bytes.length)
      ∧ 16 ≤ ret.length ∧ ret.length ≤ 32
      ∧ ret.take (min (curve.ScalarMult pub.X pub.Y priv.D).1.Bytes.length 32)
          = (curve.ScalarMult pub.X pub.Y priv.D).1.Bytes.take
              (min (curve.ScalarMult pub.X pub.Y priv.D).1.Bytes.length 32)
      ∧ ∀ i (hi : i < ret.length),
          min (curve.ScalarMult pub.X pub.Y priv.D).1.Bytes.length 32 ≤ i →
            ret.get ⟨i, hi⟩ = 0 := by
  rw [NewEllipticECDH_GenSharedSecret32, GenSharedSecret32_eq]
  generalize (curve.ScalarMult pub.X pub.Y priv.D).1.Bytes = b
  refine ⟨_, rfl, ?_⟩
  have hlen : (b.take 32 ++ List.replicate ((32 - b.length + 1) / 2) (0 : Byte)).length
      = min 32 b.length + (32 - b.length + 1) / 2 := by
    simp [List.length_append, List.length_take, List.length_replicate]
  have htake : (b.take 32).length = min b.length 32 := by
    rw [List.length_take, Nat.min_comm]
  refine ⟨?_, ?_, ?_, ?_, ?_, ?_, ?_⟩
  · intro h; rw [hlen]; omega
  · intro h; rw [hlen]; omega
  · rw [hlen]; omega
  · rw [hlen]; omega
  · rw [hlen]; omega
  · rw [List.take_left' htake]
    by_cases h : b.length ≤ 32
    · rw [Nat.min_eq_left h, List.take_of_length_le h, List.take_of_length_le (le_refl _)]
    · rw [Nat.min_eq_right (by omega)]
  · intro i hi hge
    rw [List.get_eq_getElem, List.getElem_append_right (by rw [htake]; exact hge)]
    simp

end Semantics

/-! ## `GenSharedSecret32` on short and long x-coordinates -/

/-- Claim C1, evaluated. On the instance, the private key holding the scalar zero
and the public key holding the base point give the x-coordinate zero, whose
encoding is empty; `GenSharedSecret32` returns 16 zero bytes, not 32. -/
theorem GenSharedSecret32_zero_x_returns_16_bytes :
    (lineCurve.ScalarMult basePub.X basePub.Y scalarZero).1.Bytes = []
    ∧ lineECDH.GenSharedSecret32
        (GoAny.privateKeyPtr (some ⟨scalarZero⟩)) (GoAny.publicKeyPtr (some basePub))
      = .ok (List.replicate 16 (0 : Byte), none)
    ∧ (List.replicate 16 (0 : Byte)).length ≠ 32 := by
  refine ⟨by decide, ?_, by decide⟩
  rw [lineECDH, NewEllipticECDH_GenSharedSecret32, GenSharedSecret32_eq]
  rfl

/-- Claim C4, evaluated. On the instance, the private key holding `256 ^ 29` and
the public key holding the base point give an x-coordinate whose encoding `b`
has 30 bytes; `GenSharedSecret32` returns `b` followed by one zero byte, 31
bytes in all, and not `b` followed by `32 - 30` zero bytes. -/
theorem GenSharedSecret32_30_byte_x_pads_one_zero :
    (lineCurve.ScalarMult basePub.X basePub.Y scalar30).1.Bytes = scalar30
    ∧ scalar30.length = 30
    ∧ lineECDH.GenSharedSecret32
        (GoAny.privateKeyPtr (some ⟨scalar30⟩)) (GoAny.publicKeyPtr (some basePub))
      = .ok (scalar30 ++ [0], none)
    ∧ scalar30 ++ [0] ≠ scalar30 ++ List.replicate (32 - 30) (0 : Byte) := by
  refine ⟨by decide, by decide, ?_, by decide⟩
  rw [lineECDH, NewEllipticECDH_GenSharedSecret32, GenSharedSecret32_eq]
  rfl

/-- On the instance, the scalar `256 ^ 30 + 7` and the base point give an encoding
of 31 bytes, and `GenSharedSecret32` returns it followed by one zero byte, 32
bytes in all. -/
theorem GenSharedSecret32_31_byte_x_on_instance :
    (lineCurve.ScalarMult basePub.X basePub.Y scalar31).1.Bytes = scalar31
    ∧ lineECDH.GenSharedSecret32
        (GoAny.privateKeyPtr (some ⟨scalar31⟩)) (GoAny.publicKeyPtr (some basePub))
      = .ok (scalar31 ++ [0], none) := by
  refine ⟨by decide, ?_⟩
  rw [lineECDH, NewEllipticECDH_GenSharedSecret32, GenSharedSecret32_eq]
  rfl

section Truncation

variable {Reader : Type}

/-- Claim C5, amended. When the encoding `b` of the x-coordinate of the scalar
product is longer than 32 bytes, `GenSharedSecret32` returns the first 32 bytes
of `b`: the bytes after the 32nd are dropped. -/
theorem GenSharedSecret32_keeps_first_32 (elliptic : EllipticPkg Reader) (curve : Curve)
    (priv : ellipticPrivateKey) (pub : ellipticPublicKey)
    (hL : 32 < (curve.ScalarMult pub.X pub.Y priv.D).1.Bytes.length) :
    (NewEllipticECDH elliptic curve).GenSharedSecret32
        (GoAny.privateKeyPtr (some priv)) (GoAny.publicKeyPtr (some pub))
      = .ok ((curve.ScalarMult pub.X pub.Y priv.D).1.Bytes.take 32, none) := by
  rw [NewEllipticECDH_GenSharedSecret32, GenSharedSecret32_eq]
  have hk : (32 - (curve.ScalarMult pub.X pub.Y priv.D).1.Bytes.length + 1) / 2 = 0 := by
    omega
  rw [hk, List.replicate_zero, List.append_nil]

end Truncation

/-- Claim C5, witness of the amended statement: on the instance, the scalar
`256 ^ 32 + 2` and the base point give an encoding of 33 bytes. -/
theorem GenSharedSecret32_keeps_first_32_witness :
    32 < (lineCurve.ScalarMult basePub.X basePub.Y scalar33).1.Bytes.length
    ∧ lineECDH.GenSharedSecret32
        (GoAny.privateKeyPtr (some ⟨scalar33⟩)) (GoAny.publicKeyPtr (some basePub))
      = .ok ((lineCurve.ScalarMult basePub.X basePub.Y scalar33).1.Bytes.take 32, none) :=
  ⟨by decide, GenSharedSecret32_keeps_first_32 linePkg lineCurve ⟨scalar33⟩ basePub (by decide)⟩

/-- Claim C5, counterexample. On the instance, the scalar `256 ^ 32 + 2` and the
base point give an encoding `b` of 33 bytes, and `GenSharedSecret32` does not
return the last 32 bytes of `b`: it returns `1, 0, ..., 0`, the last 32 bytes are
`0, ..., 0, 2`. -/
theorem GenSharedSecret32_not_last_32 :
    (lineCurve.ScalarMult basePub.X basePub.Y scalar33).1.Bytes.length = 33
    ∧ lineECDH.GenSharedSecret32
        (GoAny.privateKeyPtr (some ⟨scalar33⟩)) (GoAny.publicKeyPtr (some basePub))
      ≠ .ok ((lineCurve.ScalarMult basePub.X basePub.Y scalar33).1.Bytes.drop
          ((lineCurve.ScalarMult basePub.X basePub.Y scalar33).1.Bytes.length - 32), none) := by
  refine ⟨by decide, ?_⟩
  rw [lineECDH, NewEllipticECDH_GenSharedSecret32, GenSharedSecret32_eq]
  intro h
  injection h with h
  injection h with hbytes _
  revert hbytes
  decide

/-! ## The interface operation `GenerateSharedSecret` -/

section SharedSecret

variable {Reader : Type}

/-- Claim C2, evaluated on every input. On the value returned by
`NewEllipticECDH`, the interface operation `GenerateSharedSecret` panics with a
nil dereference whatever the keys: the concrete type declares `GenSharedSecret`
and no `GenerateSharedSecret`, so the call goes to the embedded interface,
which is nil. -/
theorem GenerateSharedSecret_panics (elliptic : EllipticPkg Reader) (curve : Curve)
    (privKey pubKey : GoAny) :
    (NewEllipticECDH elliptic curve).GenerateSharedSecret privKey pubKey
      = .error Panic.nilDereference :=
  rfl

/-- The method `GenSharedSecret` of the concrete type, which the interface does
not reach, returns without error the encoding of the x-coordinate of the
scalar product. -/
theorem GenSharedSecret_eq (e : ellipticECDH Reader) (priv : ellipticPrivateKey)
    (pub : ellipticPublicKey) :
    e.GenSharedSecret (GoAny.privateKeyPtr (some priv)) (GoAny.publicKeyPtr (some pub))
      = .ok ((e.curve.ScalarMult pub.X pub.Y priv.D).1.Bytes, none) :=
  rfl

/-- Agreement holds for the method `GenSharedSecret` of the concrete type: when
the library generates the public point as the scalar times the base point, and
multiplying the base point by two scalars in either order gives the same point,
two generated key pairs yield the same secret in both directions. -/
theorem GenSharedSecret_agreement (elliptic : EllipticPkg Reader) (e : ellipticECDH Reader)
    (hgen : ∀ rand d x y, elliptic.GenerateKey e.curve rand = .ok (d, x, y) →
      e.curve.ScalarBaseMult d = (x, y))
    (hcomm : ∀ a b : ByteSlice,
      e.curve.ScalarMult (e.curve.ScalarBaseMult b).1 (e.curve.ScalarBaseMult b).2 a
        = e.curve.ScalarMult (e.curve.ScalarBaseMult a).1 (e.curve.ScalarBaseMult a).2 b)
    (randA randB : Reader) (privA pubA privB pubB : GoAny)
    (hA : e.GenerateKey elliptic randA = .ok (privA, pubA, none))
    (hB : e.GenerateKey elliptic randB = .ok (privB, pubB, none)) :
    ∃ secret : ByteSlice,
      e.GenSharedSecret privA pubB = .ok (secret, none)
      ∧ e.GenSharedSecret privB pubA = .ok (secret, none) := by
  unfold ellipticECDH.GenerateKey at hA hB
  cases hgA : elliptic.GenerateKey e.curve randA with
  | error err => rw [hgA] at hA; simp at hA
  | ok ra =>
    cases hgB : elliptic.GenerateKey e.curve randB with
    | error err => rw [hgB] at hB; simp at hB
    | ok rb =>
      obtain ⟨da, xa, ya⟩ := ra
      obtain ⟨db, xb, yb⟩ := rb
      rw [hgA] at hA
      rw [hgB] at hB
      simp only [Except.ok.injEq, Prod.mk.injEq, and_true] at hA hB
      obtain ⟨hA1, hA2⟩ := hA
      obtain ⟨hB1, hB2⟩ := hB
      subst hA1 hA2 hB1 hB2
      have h := hcomm da db
      rw [hgen randA da xa ya hgA, hgen randB db xb yb hgB] at h
      refine ⟨(e.curve.ScalarMult xb yb da).1.Bytes, ?_, ?_⟩
      · rw [GenSharedSecret_eq]
      · rw [GenSharedSecret_eq]
        show Except.ok ((e.curve.ScalarMult xa ya db).1.Bytes, none) = _
        rw [← h]

end SharedSecret

/-- On the curve of the instance, multiplying the base point by two scalars in
either order gives the same point. -/
theorem lineCurve_scalars_commute (a b : ByteSlice) :
    lineCurve.ScalarMult (lineCurve.ScalarBaseMult b).1 (lineCurve.ScalarBaseMult b).2 a
      = lineCurve.ScalarMult (lineCurve.ScalarBaseMult a).1 (lineCurve.ScalarBaseMult a).2 b := by
  simp only [lineCurve]
  generalize BigInt.SetBytes a = m
  generalize BigInt.SetBytes b = n
  have key : ∀ c : Int, m * (n * c % lineP) % lineP = n * (m * c % lineP) % lineP := by
    intro c
    rw [Int.mul_emod m (n * c % lineP), Int.emod_emod, ← Int.mul_emod,
      Int.mul_emod n (m * c % lineP), Int.emod_emod, ← Int.mul_emod]
    congr 1
    ring
  rw [key 1, key 2]

/-- Whatever the number of draws, the key generation loop returns a scalar with
its multiple of the base point. -/
theorem generateKeyLoop_base_multiple (curve : Curve) (bitSize fuel : Nat)
    (rand d : ByteSlice) (x y : BigInt)
    (h : generateKeyLoop curve bitSize fuel rand = .ok (d, x, y)) :
    curve.ScalarBaseMult d = (x, y) := by
  induction fuel generalizing rand with
  | zero => simp [generateKeyLoop] at h
  | succ fuel ih =>
    unfold generateKeyLoop at h
    split at h
    · simp at h
    · simp only at h
      split at h
      · exact ih _ h
      · injection h with h
        injection h with hd h
        injection h with hx hy
        rw [← hd, ← hx, ← hy]

/-- Key generation of the instance returns the scalar times the base point. -/
theorem linePkg_generates_base_multiple (rand d : ByteSlice) (x y : BigInt)
    (h : linePkg.GenerateKey lineCurve rand = .ok (d, x, y)) :
    lineCurve.ScalarBaseMult d = (x, y) :=
  generateKeyLoop_base_multiple lineCurve _ _ rand d x y h

/-- On the instance, the key pairs read from the readers of A and B agree on the
secret computed by the method `GenSharedSecret` of the concrete type. -/
theorem GenSharedSecret_agreement_on_instance :
    ∃ secret : ByteSlice,
      ellipticECDH.GenSharedSecret (⟨none, lineCurve⟩ : ellipticECDH ByteSlice)
          (GoAny.privateKeyPtr (some ⟨scalarA⟩)) (GoAny.publicKeyPtr (some ⟨lineCurve, 5, 10⟩))
        = .ok (secret, none)
      ∧ ellipticECDH.GenSharedSecret (⟨none, lineCurve⟩ : ellipticECDH ByteSlice)
          (GoAny.privateKeyPtr (some ⟨scalarB⟩)) (GoAny.publicKeyPtr (some ⟨lineCurve, 3, 6⟩))
        = .ok (secret, none) :=
  GenSharedSecret_agreement linePkg ⟨none, lineCurve⟩ linePkg_generates_base_multiple
    lineCurve_scalars_commute randA randB _ _ _ _ rfl rfl

/-- Claim C3, evaluated. On the instance, the readers of A and B give the key
pairs `(3, (3, 6))` and `(5, (5, 10))`; the interface operation
`GenerateSharedSecret` panics in both directions, so neither call succeeds. -/
theorem GenerateSharedSecret_fails_on_generated_keys :
    lineECDH.GenerateKey randA
      = .ok (GoAny.privateKeyPtr (some ⟨scalarA⟩),
          GoAny.publicKeyPtr (some ⟨lineCurve, 3, 6⟩), none)
    ∧ lineECDH.GenerateKey randB
      = .ok (GoAny.privateKeyPtr (some ⟨scalarB⟩),
          GoAny.publicKeyPtr (some ⟨lineCurve, 5, 10⟩), none)
    ∧ lineECDH.GenerateSharedSecret
        (GoAny.privateKeyPtr (some ⟨scalarA⟩)) (GoAny.publicKeyPtr (some ⟨lineCurve, 5, 10⟩))
      = .error Panic.nilDereference
    ∧ lineECDH.GenerateSharedSecret
        (GoAny.privateKeyPtr (some ⟨scalarB⟩)) (GoAny.publicKeyPtr (some ⟨lineCurve, 3, 6⟩))
      = .error Panic.nilDereference :=
  ⟨rfl, rfl, rfl, rfl⟩

/-! ## Key generation and private keys -/

section Keys

variable {Reader : Type}

/-- Claim C8. For every byte slice `b`, `UnmarshalPrivateKey` returns a private key
and `MarshalPrivateKey` of that key returns `b` itself. -/
theorem PrivateKey_roundtrip (elliptic : EllipticPkg Reader) (curve : Curve) (b : ByteSlice) :
    ∃ key : GoAny,
      (NewEllipticECDH elliptic curve).UnmarshalPrivateKey b = .ok key
      ∧ (NewEllipticECDH elliptic curve).MarshalPrivateKey key = .ok b :=
  ⟨GoAny.privateKeyPtr (some ⟨b⟩), rfl, rfl⟩

/-- Claim C9. `GenerateKey` returns an error exactly when the key generation of the
library does. In that case it returns that error with two nil keys. Otherwise
it returns a nil error, a private key holding the scalar of the library and a
public key holding the coordinates of the library and the curve of the
instance. -/
theorem GenerateKey_spec (elliptic : EllipticPkg Reader) (curve : Curve) (rand : Reader) :
    (∀ err, elliptic.GenerateKey curve rand = .error err →
        (NewEllipticECDH elliptic curve).GenerateKey rand
          = .ok (GoAny.nil, GoAny.nil, some err))
    ∧ (∀ d x y, elliptic.GenerateKey curve rand = .ok (d, x, y) →
        (NewEllipticECDH elliptic curve).GenerateKey rand
          = .ok (GoAny.privateKeyPtr (some ⟨d⟩),
              GoAny.publicKeyPtr (some ⟨curve, x, y⟩), none))
    ∧ ((∃ priv pub err,
          (NewEllipticECDH elliptic curve).GenerateKey rand = .ok (priv, pub, some err))
        ↔ ∃ err, elliptic.GenerateKey curve rand = .error err) := by
  have hdef : (NewEllipticECDH elliptic curve).GenerateKey rand
      = ellipticECDH.GenerateKey elliptic ⟨none, curve⟩ rand := rfl
  rw [hdef]
  unfold ellipticECDH.GenerateKey
  cases hg : elliptic.GenerateKey curve rand with
  | error err0 =>
    refine ⟨?_, ?_, ?_⟩
    · intro err h
      injection h with h
      rw [h]
    · intro d x y h
      simp at h
    · exact ⟨fun _ => ⟨err0, rfl⟩, fun _ => ⟨GoAny.nil, GoAny.nil, err0, rfl⟩⟩
  | ok r =>
    obtain ⟨d0, x0, y0⟩ := r
    refine ⟨?_, ?_, ?_⟩
    · intro err h
      simp at h
    · intro d x y h
      injection h with h
      injection h with h1 h2
      injection h2 with h2 h3
      rw [h1, h2, h3]
    · constructor
      · rintro ⟨priv, pub, err, h⟩
        simp at h
      · rintro ⟨err, h⟩
        simp at h

end Keys

/-- Claim C9, witness of the failing branch: on the instance, a reader that
delivers no byte makes the library fail, and `GenerateKey` returns that error
with two nil keys. -/
theorem GenerateKey_spec_witness :
    linePkg.GenerateKey lineCurve [] = .error ⟨"EOF"⟩
    ∧ lineECDH.GenerateKey [] = .ok (GoAny.nil, GoAny.nil, some ⟨"EOF"⟩) :=
  ⟨rfl, (GenerateKey_spec linePkg lineCurve []).1 ⟨"EOF"⟩ rfl⟩

/-! ## Facts about the instance of the library -/

/-- A fixed-width encoding has the width asked for. -/
theorem fillBytes_length (w n : Nat) : (fillBytes w n).length = w := by
  induction w with
  | zero => rfl
  | succ w ih => simp [fillBytes, ih]

/-- Reading a fixed-width encoding back continues the value read so far. -/
theorem foldl_fillBytes (w n a : Nat) :
    (fillBytes w n).foldl (fun acc (d : Byte) => acc * 256 + d.val) a
      = a * 256 ^ w + n % 256 ^ w := by
  induction w generalizing a with
  | zero => simp [fillBytes, Nat.mod_one]
  | succ w ih =>
    rw [fillBytes, List.foldl_cons, ih, Nat.mod_pow_succ]
    ring

/-- Decoding the fixed-width encoding of a number that fits gives the number. -/
theorem SetBytes_fillBytes (w n : Nat) (h : n < 256 ^ w) :
    BigInt.SetBytes (fillBytes w n) = (n : Int) := by
  unfold BigInt.SetBytes
  rw [foldl_fillBytes, Nat.mod_eq_of_lt h]
  simp

/-- The modulus of the instance fits in 66 bytes. -/
theorem lineP_lt : lineP < 256 ^ 66 := by
  unfold lineP
  norm_num

/-- The package functions of the instance decode what they encode, for a point of
the curve with coordinates in range. -/
theorem linePkg_Unmarshal_Marshal (curve : Curve) (x y : BigInt)
    (hx0 : 0 ≤ x) (hy0 : 0 ≤ y) (hx1 : x < curve.Params.P) (hy1 : y < curve.Params.P)
    (hw : curve.Params.P ≤ 256 ^ curve.byteLen) (hon : curve.IsOnCurve x y = true) :
    linePkg.Unmarshal curve (linePkg.Marshal curve x y) = (some x, some y) := by
  have hxn : x.natAbs < 256 ^ curve.byteLen := by
    zify
    rw [abs_of_nonneg hx0]
    exact lt_of_lt_of_le hx1 hw
  have hyn : y.natAbs < 256 ^ curve.byteLen := by
    zify
    rw [abs_of_nonneg hy0]
    exact lt_of_lt_of_le hy1 hw
  have hsx : BigInt.SetBytes (fillBytes curve.byteLen x.natAbs) = x := by
    rw [SetBytes_fillBytes _ _ hxn]; exact Int.natAbs_of_nonneg hx0
  have hsy : BigInt.SetBytes (fillBytes curve.byteLen y.natAbs) = y := by
    rw [SetBytes_fillBytes _ _ hyn]; exact Int.natAbs_of_nonneg hy0
  simp only [linePkg]
  generalize hfx : fillBytes curve.byteLen x.natAbs = fx at hsx
  generalize hfy : fillBytes curve.byteLen y.natAbs = fy at hsy
  have hlx : fx.length = curve.byteLen := by rw [← hfx, fillBytes_length]
  have hly : fy.length = curve.byteLen := by rw [← hfy, fillBytes_length]
  have hd1 : ((4 :: (fx ++ fy) : ByteSlice).drop 1).take curve.byteLen = fx := by
    rw [List.drop_one, List.tail_cons, List.take_left' hlx]
  have hd2 : (4 :: (fx ++ fy) : ByteSlice).drop (1 + curve.byteLen) = fy := by
    rw [Nat.add_comm, List.drop_succ_cons, List.drop_left' hlx]
  have hlen : (4 :: (fx ++ fy) : ByteSlice).length = 1 + 2 * curve.byteLen := by
    simp only [List.length_cons, List.length_append, hlx, hly]
    omega
  rw [hd1, hd2, hsx, hsy, if_neg (by rw [hlen]; simp), if_neg (by simp),
    if_neg (not_or.mpr ⟨not_le.mpr hx1, not_le.mpr hy1⟩), if_neg (by rw [hon]; simp)]

/-- On the curve of the instance, decoding inverts encoding on points of the curve. -/
theorem linePkg_inverts (x y : BigInt) (h : lineCurve.IsOnCurve x y = true) :
    linePkg.Unmarshal lineCurve (linePkg.Marshal lineCurve x y) = (some x, some y) := by
  have hx : 0 < x ∧ x < lineP ∧ y = 2 * x % lineP := by
    simpa [lineCurve] using h
  obtain ⟨hxpos, hx1, hy⟩ := hx
  have hx0 : 0 ≤ x := le_of_lt hxpos
  have hP : (0 : Int) < lineP := by unfold lineP; norm_num
  have hy0 : 0 ≤ y := by rw [hy]; exact Int.emod_nonneg _ (ne_of_gt hP)
  have hy1 : y < lineP := by rw [hy]; exact Int.emod_lt_of_pos _ hP
  exact linePkg_Unmarshal_Marshal lineCurve x y hx0 hy0 hx1 hy1 (le_of_lt lineP_lt) h

/-- The package functions of the instance return two nil coordinates on a slice
of the wrong length and on a slice that describes a point off the curve. -/
theorem linePkg_rejects (curve : Curve) (data : ByteSlice)
    (h : curve.wrongLength data ∨ curve.offCurve data) :
    linePkg.Unmarshal curve data = (none, none) := by
  simp only [linePkg]
  rcases h with h | h
  · unfold Curve.wrongLength at h
    rw [if_pos h]
  · unfold Curve.offCurve Curve.describedPoint at h
    split_ifs <;> rfl

/-! ## Public keys -/

section PublicKeys

variable {Reader : Type}

/-- Claim C6, amended. Assume that the library decodes what it encodes on points
of the curve. Then for every public key returned by a successful `GenerateKey`
whose point is on the curve, the key holds the curve of the instance, `Marshal`
returns a slice, and `Unmarshal` of that slice returns `true` with a key
holding the same coordinates and the same curve, which is the key itself. -/
theorem PublicKey_roundtrip (elliptic : EllipticPkg Reader) (curve : Curve)
    (hinv : ∀ x y, curve.IsOnCurve x y = true →
      elliptic.Unmarshal curve (elliptic.Marshal curve x y) = (some x, some y))
    (rand : Reader) (priv : GoAny) (key : ellipticPublicKey)
    (hgen : (NewEllipticECDH elliptic curve).GenerateKey rand
      = .ok (priv, GoAny.publicKeyPtr (some key), none))
    (hkey : curve.IsOnCurve key.X key.Y = true) :
    key.Curve = curve
    ∧ ∃ data : ByteSlice,
        (NewEllipticECDH elliptic curve).Marshal (GoAny.publicKeyPtr (some key)) = .ok data
        ∧ (NewEllipticECDH elliptic curve).Unmarshal data
            = .ok (GoAny.publicKeyPtr (some ⟨curve, key.X, key.Y⟩), true)
        ∧ (NewEllipticECDH elliptic curve).Unmarshal data
            = .ok (GoAny.publicKeyPtr (some key), true) := by
  have hdef : (NewEllipticECDH elliptic curve).GenerateKey rand
      = ellipticECDH.GenerateKey elliptic ⟨none, curve⟩ rand := rfl
  rw [hdef] at hgen
  unfold ellipticECDH.GenerateKey at hgen
  cases hg : elliptic.GenerateKey curve rand with
  | error err => rw [hg] at hgen; simp at hgen
  | ok r =>
    obtain ⟨d, x, y⟩ := r
    rw [hg] at hgen
    simp only [Except.ok.injEq, Prod.mk.injEq, and_true, GoAny.publicKeyPtr.injEq,
      Option.some.injEq] at hgen
    obtain ⟨_, hpub⟩ := hgen
    subst hpub
    have hU : (NewEllipticECDH elliptic curve).Unmarshal (elliptic.Marshal curve x y)
        = .ok (GoAny.publicKeyPtr (some ⟨curve, x, y⟩), true) := by
      show ellipticECDH.Unmarshal elliptic ⟨none, curve⟩ (elliptic.Marshal curve x y) = _
      unfold ellipticECDH.Unmarshal
      simp only [hinv x y hkey]
    exact ⟨rfl, elliptic.Marshal curve x y, rfl, hU, hU⟩

/-- Claim C7. `Unmarshal` returns on every byte slice (it does not panic). It
returns `false` with the nil pointer whenever the library returns a nil
coordinate, which, for a library that rejects slices of the wrong length and
slices describing a point off the curve, includes all such slices. It returns
`true` only when the library returned both coordinates, and the key then holds
those coordinates and the curve of the instance. -/
theorem Unmarshal_spec (elliptic : EllipticPkg Reader) (curve : Curve)
    (hrej : ∀ data, curve.wrongLength data ∨ curve.offCurve data →
      elliptic.Unmarshal curve data = (none, none))
    (data : ByteSlice) :
    (∃ key ok, (NewEllipticECDH elliptic curve).Unmarshal data = .ok (key, ok))
    ∧ (curve.wrongLength data ∨ curve.offCurve data →
        (NewEllipticECDH elliptic curve).Unmarshal data
          = .ok (GoAny.publicKeyPtr none, false))
    ∧ ((elliptic.Unmarshal curve data).1 = none ∨ (elliptic.Unmarshal curve data).2 = none →
        (NewEllipticECDH elliptic curve).Unmarshal data
          = .ok (GoAny.publicKeyPtr none, false))
    ∧ (∀ key, (NewEllipticECDH elliptic curve).Unmarshal data = .ok (key, false) →
        key = GoAny.publicKeyPtr none)
    ∧ (∀ key, (NewEllipticECDH elliptic curve).Unmarshal data = .ok (key, true) →
        ∃ x y, elliptic.Unmarshal curve data = (some x, some y)
          ∧ key = GoAny.publicKeyPtr (some ⟨curve, x, y⟩)) := by
  have hdef : (NewEllipticECDH elliptic curve).Unmarshal data
      = ellipticECDH.Unmarshal elliptic ⟨none, curve⟩ data := rfl
  have hnil : (elliptic.Unmarshal curve data).1 = none ∨ (elliptic.Unmarshal curve data).2 = none →
      (NewEllipticECDH elliptic curve).Unmarshal data
        = .ok (GoAny.publicKeyPtr none, false) := by
    intro h
    rw [hdef]
    unfold ellipticECDH.Unmarshal
    rcases hr : elliptic.Unmarshal curve data with ⟨ox, oy⟩
    rw [hr] at h
    cases ox <;> cases oy <;> simp at h <;> rfl
  refine ⟨?_, ?_, hnil, ?_, ?_⟩
  · rw [hdef]
    unfold ellipticECDH.Unmarshal
    split
    · exact ⟨_, _, rfl⟩
    · exact ⟨_, _, rfl⟩
  · intro h
    apply hnil
    rw [hrej data h]
    exact Or.inl rfl
  · intro key h
    rw [hdef] at h
    unfold ellipticECDH.Unmarshal at h
    split at h
    · simp at h
    · injection h with h
      injection h with h _
      exact h.symm
  · intro key h
    rw [hdef] at h
    unfold ellipticECDH.Unmarshal at h
    split at h
    · rename_i x y hr
      injection h with h
      injection h with h _
      exact ⟨x, y, hr, h.symm⟩
    · simp at h

end PublicKeys

/-- Claim C6, witness of the amended statement: on the instance, whose library
decodes what it encodes on points of the curve, the reader of A gives the
public key `(3, 6)`, a point of the curve, and the key round-trips. -/
theorem PublicKey_roundtrip_witness :
    lineECDH.GenerateKey randA
      = .ok (GoAny.privateKeyPtr (some ⟨scalarA⟩),
          GoAny.publicKeyPtr (some ⟨lineCurve, 3, 6⟩), none)
    ∧ lineCurve.IsOnCurve 3 6 = true
    ∧ ∃ data : ByteSlice,
        lineECDH.Marshal (GoAny.publicKeyPtr (some ⟨lineCurve, 3, 6⟩)) = .ok data
        ∧ lineECDH.Unmarshal data = .ok (GoAny.publicKeyPtr (some ⟨lineCurve, 3, 6⟩), true) :=
  ⟨rfl, rfl,
    (PublicKey_roundtrip linePkg lineCurve linePkg_inverts randA
      (GoAny.privateKeyPtr (some ⟨scalarA⟩)) ⟨lineCurve, 3, 6⟩ rfl rfl).2.imp
      (fun _ h => ⟨h.1, h.2.2⟩)⟩

/-- Claim C6, counterexample. On the instance the library decodes what it encodes
on points of the curve. A reader delivering `00 42 00 ... 00` makes
`GenerateKey` succeed with the scalar zero and the public key `(0, 0)`, which
is not on the curve; `Marshal` of that key returns the marker byte and 132
zero bytes, and `Unmarshal` of that slice returns `false` with the nil pointer. -/
theorem PublicKey_roundtrip_fails_off_curve :
    (∀ x y, lineCurve.IsOnCurve x y = true →
      linePkg.Unmarshal lineCurve (linePkg.Marshal lineCurve x y) = (some x, some y))
    ∧ lineECDH.GenerateKey randO
      = .ok (GoAny.privateKeyPtr (some ⟨scalarO⟩),
          GoAny.publicKeyPtr (some ⟨lineCurve, 0, 0⟩), none)
    ∧ lineCurve.IsOnCurve 0 0 = false
    ∧ lineECDH.Marshal (GoAny.publicKeyPtr (some ⟨lineCurve, 0, 0⟩))
      = .ok (4 :: List.replicate 132 0)
    ∧ lineECDH.Unmarshal (4 :: List.replicate 132 0)
      = .ok (GoAny.publicKeyPtr none, false) :=
  ⟨linePkg_inverts, rfl, rfl, rfl, rfl⟩

/-- Claim C7, witness: on the instance, whose library rejects malformed slices,
an all-zero slice of five bytes has the wrong length and `Unmarshal` returns
`false` with the nil pointer. -/
theorem Unmarshal_spec_witness :
    lineCurve.wrongLength (List.replicate 5 0)
    ∧ lineECDH.Unmarshal (List.replicate 5 0) = .ok (GoAny.publicKeyPtr none, false) :=
  have hlen : lineCurve.wrongLength (List.replicate 5 0) := by
    unfold Curve.wrongLength
    decide
  ⟨hlen, (Unmarshal_spec linePkg lineCurve (linePkg_rejects lineCurve)
    (List.replicate 5 0)).2.1 (Or.inl hlen)⟩

end GoEcdh
